import Mathlib

set_option maxRecDepth 10000

set_option allowUnsafeReducibility true

/-!
# Verification of the insurance recommendation backend

Shallow embedding of `backend/index.js` of the Sky-Gem insurance
recommendation service: the input validator middleware
(`validateRecommendationInput`), the rules-based recommendation engine
(`getRecommendation`) and the request handler with its best-effort
database write.

JavaScript numbers are IEEE 754 binary64 values.  All numeric values
appearing in this program are rationals of modest size (far from
overflow and from the subnormal range), so a double is modelled as the
rational value it denotes, and every arithmetic operation of the source
is wrapped in `fl`, rounding the exact rational result to the nearest
representable double (53-bit significand, ties to even), exactly as
IEEE 754 prescribes for `*`, `/` and `+` in the ranges used here.
-/

namespace SkyGem

/-! ## IEEE 754 binary64 rounding, modelled over ℚ -/

/-- Round a rational to the nearest integer, ties to even: the rounding of
the significand used by IEEE 754 round-to-nearest. -/
def roundTE (q : ℚ) : ℤ :=
  if q - ⌊q⌋ < 1/2 then ⌊q⌋
  else if 1/2 < q - ⌊q⌋ then ⌊q⌋ + 1
  else if ⌊q⌋ % 2 = 0 then ⌊q⌋ else ⌊q⌋ + 1

/-- Fuel-driven binade search for `1 ≤ q`: with enough fuel it returns the
natural number `e` with `2 ^ e ≤ q < 2 ^ (e + 1)`. -/
def natBinade : ℕ → ℚ → ℕ
  | 0, _ => 0
  | f + 1, q => if q < 2 then 0 else natBinade f (q / 2) + 1

/-- Fuel-driven binade search for `0 < q < 1`: with enough fuel it returns
the positive natural `k` with `2 ^ (-k) ≤ q < 2 ^ (-k + 1)`. -/
def negBinade : ℕ → ℚ → ℕ
  | 0, _ => 1
  | f + 1, q => if 1 ≤ 2 * q then 1 else negBinade f (2 * q) + 1

/-- Exponent of the binade containing a positive rational:
`2 ^ binade q ≤ q < 2 ^ (binade q + 1)`.  The fuel supplied to the two
searches is always sufficient (`q ≤ q.num < 2 ^ q.num` on one side,
`1 / q.den ≤ q` and `q.den ≤ 2 ^ q.den` on the other). -/
def binade (q : ℚ) : ℤ :=
  if 1 ≤ q then (natBinade q.num.natAbs q : ℤ) else -(negBinade q.den q : ℤ)

/-- Round a positive rational to the nearest IEEE 754 binary64 value:
scale the significand into `[2 ^ 52, 2 ^ 53)`, round ties-to-even, and
scale back. -/
def flPos (q : ℚ) : ℚ :=
  (roundTE (q * 2 ^ (52 - binade q)) : ℚ) * 2 ^ (binade q - 52)

/-- Model of rounding an exact rational result of a JavaScript arithmetic
operation to the nearest double.  Overflow and subnormals are irrelevant
in the value ranges of this program and are not modelled. -/
def fl (q : ℚ) : ℚ :=
  if q = 0 then 0 else if q < 0 then -flPos (-q) else flPos q

/-- Value of the JavaScript literal `1.2`: the nearest double to 6/5. -/
def fl12c : ℚ := fl (6/5)

/-- Value of the JavaScript literal `0.8`: the nearest double to 4/5. -/
def fl08c : ℚ := fl (4/5)

/-- Value of the JavaScript literal `1.3`: the nearest double to 13/10. -/
def fl13c : ℚ := fl (13/10)

/-! ## Data model -/

/-- Destructured request body after validation: the four fields read by
`getRecommendation` in `backend/index.js`.  The validator guarantees the
three numeric fields hold integers, so they are carried as `ℤ`; the risk
tolerance is carried as the raw string the JavaScript `switch` inspects. -/
structure Profile where
  age : ℤ
  income : ℤ
  dependents : ℤ
  riskTolerance : String
deriving DecidableEq

/-- Result record built by `getRecommendation`: all four fields are the
strings the endpoint returns. -/
structure Recommendation where
  type : String
  coverage : String
  duration : String
  explanation : String
deriving DecidableEq

/-! ## Recommendation engine (`getRecommendation` in `backend/index.js`)

The source mutates a local `coverage` variable through four statements;
each intermediate value of that variable is a named definition here, in
the exact order of the source. -/

/-- Initial value of `coverage`: the double `income * 10`. -/
def baseCoverage (p : Profile) : ℚ := fl (p.income * 10)

/-- Value of `coverage` after `if (dependents > 0) coverage += dependents * 250000`. -/
def covAfterDependents (p : Profile) : ℚ :=
  if 0 < p.dependents then fl (baseCoverage p + fl (p.dependents * 250000))
  else baseCoverage p

/-- Value of `coverage` after the age adjustment
(`age < 30` gives `coverage *= 1.2`, `age > 50` gives `coverage *= 0.8`). -/
def covAfterAge (p : Profile) : ℚ :=
  if p.age < 30 then fl (covAfterDependents p * fl12c)
  else if 50 < p.age then fl (covAfterDependents p * fl08c)
  else covAfterDependents p

/-- Value of `coverage` after the `switch (riskTolerance)` statement
(`Low` gives `coverage *= 0.8`, `Medium` leaves it, `High` gives
`coverage *= 1.3`, any other string falls through the switch). -/
def covAfterRisk (p : Profile) : ℚ :=
  if p.riskTolerance = "Low" then fl (covAfterAge p * fl08c)
  else if p.riskTolerance = "Medium" then covAfterAge p
  else if p.riskTolerance = "High" then fl (covAfterAge p * fl13c)
  else covAfterAge p

/-- The integer `Math.round(coverage / 1000)`: the division happens in
doubles, and `Math.round` rounds the exact double value half towards
positive infinity, which is Mathlib's `round`. -/
def coverageRounded (p : Profile) : ℤ := round (fl (covAfterRisk p / 1000))

/-- Final numeric value of `coverage`: `Math.round(coverage / 1000) * 1000`
as a double. -/
def coverageAmount (p : Profile) : ℚ := fl ((coverageRounded p : ℚ) * 1000)

/-- Value of the `type` variable after the switch: initialised to
`'Term Life'`, set to `'Whole Life'` only by the `High` case. -/
def policyTypeOf (p : Profile) : String :=
  if p.riskTolerance = "High" then "Whole Life" else "Term Life"

/-- Value of the `duration` variable after the switch: initialised to 20,
set to 15 by `Low`, 20 by `Medium` and 30 by `High`. -/
def durationOf (p : Profile) : ℤ :=
  if p.riskTolerance = "Low" then 15
  else if p.riskTolerance = "Medium" then 20
  else if p.riskTolerance = "High" then 30
  else 20

/-- Value of the `explanation` variable after the switch: initialised to
the empty string, set by the three cases. -/
def explanationOf (p : Profile) : String :=
  if p.riskTolerance = "Low" then "Conservative profile: moderate coverage, shorter term."
  else if p.riskTolerance = "Medium" then "Balanced profile: standard coverage and term."
  else if p.riskTolerance = "High" then "Aggressive profile: higher coverage, longer term, whole life."
  else ""

/-- Helper for digit grouping: walks the reversed digit list and inserts a
comma after every third digit that is followed by more digits. -/
def commaRev : List Char → ℕ → List Char
  | [], _ => []
  | [c], _ => [c]
  | c :: cs, i =>
      if (i + 1) % 3 = 0 then c :: ',' :: commaRev cs (i + 1)
      else c :: commaRev cs (i + 1)

/-- Model of `Number.prototype.toLocaleString` for the integral values this
program formats: the decimal digits grouped in threes by commas. -/
def toLocaleString (n : ℤ) : String :=
  if n < 0 then "-" ++ String.mk ((commaRev (toString n.natAbs).toList.reverse 0).reverse)
  else String.mk ((commaRev (toString n.natAbs).toList.reverse 0).reverse)

/-- The engine `getRecommendation` of `backend/index.js`: assembles the
four response strings.  In every reachable range the final `coverage`
double is the integer `coverageRounded p * 1000`, which is what
`toLocaleString` formats. -/
def getRecommendation (p : Profile) : Recommendation :=
  { type := policyTypeOf p
    coverage := "$" ++ toLocaleString (round (coverageAmount p))
    duration := toString (durationOf p) ++ " years"
    explanation := explanationOf p }

/-! ## Input validator (`validateRecommendationInput` in `backend/index.js`) -/

/-- A JSON value as it arrives in `req.body`: the cases this validator can
distinguish. -/
inductive JSValue where
  | num (q : ℚ)
  | str (s : String)
  | jsbool (b : Bool)
  | jsnull
deriving DecidableEq

/-- Raw request body: each of the four read fields is either absent
(`none`, i.e. `undefined`) or some JSON value. -/
structure RequestBody where
  age : Option JSValue
  income : Option JSValue
  dependents : Option JSValue
  riskTolerance : Option JSValue
deriving DecidableEq

/-- JavaScript truthiness of a possibly-absent value, as tested by
`!age || !income || !dependents || !riskTolerance`: `undefined`, `null`,
`0`, `''` and `false` are falsy. -/
def truthy : Option JSValue → Bool
  | none => false
  | some (.num q) => decide (q ≠ 0)
  | some (.str s) => decide (s ≠ "")
  | some (.jsbool b) => b
  | some .jsnull => false

/-- The combined per-field test `!Number.isInteger(x) || x < lo || x > hi`:
true when the value is not an integer number (this covers every
non-number, since `Number.isInteger` is false on them and `||`
short-circuits before any coercing comparison) or is out of range. -/
def failsIntRange (v : Option JSValue) (lo hi : ℚ) : Bool :=
  match v with
  | some (.num q) => decide (q.den ≠ 1) || decide (q < lo) || decide (hi < q)
  | _ => true

/-- The test `['Low', 'Medium', 'High'].includes(riskTolerance)`:
`includes` uses strict equality, so only those exact strings pass. -/
def includesRisk : Option JSValue → Bool
  | some (.str s) => s == "Low" || s == "Medium" || s == "High"
  | _ => false

/-- The validation middleware: returns `some message` when it responds
with status 400 carrying that error message (the missing-fields response
additionally carries the list of all four required field names), and
`none` when it calls `next()` and the request reaches the engine.  The
checks run in source order and stop at the first failure. -/
def validateRecommendationInput (b : RequestBody) : Option String :=
  if !truthy b.age || !truthy b.income || !truthy b.dependents || !truthy b.riskTolerance then
    some "Missing required fields"
  else if failsIntRange b.age 18 80 then
    some "Age must be an integer between 18 and 80"
  else if failsIntRange b.income 20000 10000000 then
    some "Income must be an integer between 20,000 and 10,000,000"
  else if failsIntRange b.dependents 0 10 then
    some "Dependents must be an integer between 0 and 10"
  else if !includesRisk b.riskTolerance then
    some "Risk tolerance must be Low, Medium, or High"
  else none

/-- Request body holding the given integers and risk string, the shape a
well-formed JSON request produces. -/
def bodyOfInts (a i d : ℤ) (r : String) : RequestBody :=
  { age := some (.num a), income := some (.num i),
    dependents := some (.num d), riskTolerance := some (.str r) }

/-- Invariants of §3 of the specification on an applicant profile. -/
def ValidProfile (p : Profile) : Prop :=
  18 ≤ p.age ∧ p.age ≤ 80 ∧
  20000 ≤ p.income ∧ p.income ≤ 10000000 ∧
  0 ≤ p.dependents ∧ p.dependents ≤ 10 ∧
  (p.riskTolerance = "Low" ∨ p.riskTolerance = "Medium" ∨ p.riskTolerance = "High")

instance (p : Profile) : Decidable (ValidProfile p) := by
  unfold ValidProfile; infer_instance

/-! ## Request handler (`app.post('/recommendation')` in `backend/index.js`) -/

/-- Response of the recommendation endpoint as seen by the caller. -/
structure ApiResponse where
  success : Bool
  recommendation : Option Recommendation
  errorMsg : Option String
deriving DecidableEq

/-- The handler body for a request that passed validation, parametrised by
the outcome of the `pool.query` insert: the inner try/catch logs a
database error and falls through, so both branches reach the same
`res.json` success call. -/
def handleRecommendation (p : Profile) (dbResult : Except String ℕ) : ApiResponse :=
  let recommendation := getRecommendation p
  match dbResult with
  | .ok _id => { success := true, recommendation := some recommendation, errorMsg := none }
  | .error _e => { success := true, recommendation := some recommendation, errorMsg := none }

/-! ## Exact-arithmetic reference engine, from §4.2 of the specification -/

/-- Steps 1 and 2 of §4.2 in exact rational arithmetic: base
`annualIncome × 10` plus `dependents × 250000`. -/
def exactBase (p : Profile) : ℚ := p.income * 10 + p.dependents * 250000

/-- Step 3 of §4.2 in exact arithmetic: the age multiplier. -/
def exactAfterAge (p : Profile) : ℚ :=
  if p.age < 30 then exactBase p * (6/5)
  else if 50 < p.age then exactBase p * (4/5)
  else exactBase p

/-- Step 4 of §4.2 in exact arithmetic: the risk multiplier. -/
def exactCoverage (p : Profile) : ℚ :=
  if p.riskTolerance = "Low" then exactAfterAge p * (4/5)
  else if p.riskTolerance = "Medium" then exactAfterAge p
  else if p.riskTolerance = "High" then exactAfterAge p * (13/10)
  else exactAfterAge p

/-- Step 5 of §4.2 in exact arithmetic: round-half-up on `coverage/1000`
(Mathlib's `round`), multiplied back by 1000. -/
def exactCoverageAmount (p : Profile) : ℤ :=
  round (exactCoverage p / 1000) * 1000

/-! ## Properties of the significand rounding `roundTE` -/

theorem roundTE_intCast (n : ℤ) : roundTE (n : ℚ) = n := by
  simp [roundTE]

theorem floor_le_roundTE (q : ℚ) : ⌊q⌋ ≤ roundTE q := by
  unfold roundTE
  split_ifs <;> omega

theorem roundTE_le_floor_add_one (q : ℚ) : roundTE q ≤ ⌊q⌋ + 1 := by
  unfold roundTE
  split_ifs <;> omega

theorem abs_roundTE_sub_le (q : ℚ) : |(roundTE q : ℚ) - q| ≤ 1/2 := by
  have hfl : (⌊q⌋ : ℚ) ≤ q := Int.floor_le q
  have hfu : q < ⌊q⌋ + 1 := Int.lt_floor_add_one q
  unfold roundTE
  split_ifs with h1 h2 h3
  · rw [abs_le]; constructor <;> linarith
  · rw [abs_le]; push_cast; constructor <;> linarith
  · rw [abs_le]; constructor <;> linarith
  · rw [abs_le]; push_cast
    have : q - ⌊q⌋ = 1/2 := le_antisymm (not_lt.mp h2) (not_lt.mp h1)
    constructor <;> linarith

theorem roundTE_eq_of_abs_lt {q : ℚ} {n : ℤ} (h : |q - n| < 1/2) : roundTE q = n := by
  rw [abs_lt] at h
  obtain ⟨hlo, hhi⟩ := h
  rcases le_or_lt (n : ℚ) q with hc | hc
  · have hfl : ⌊q⌋ = n := by
      rw [Int.floor_eq_iff]
      · exact ⟨hc, by linarith⟩
    unfold roundTE
    rw [hfl, if_pos (by linarith)]
  · have hfl : ⌊q⌋ = n - 1 := by
      rw [Int.floor_eq_iff]
      · constructor <;> push_cast <;> linarith
    unfold roundTE
    rw [hfl, if_neg (by push_cast; linarith), if_pos (by push_cast; linarith)]
    omega

theorem roundTE_mono {q r : ℚ} (h : q ≤ r) : roundTE q ≤ roundTE r := by
  rcases lt_or_eq_of_le (Int.floor_mono h) with hf | hf
  · calc roundTE q ≤ ⌊q⌋ + 1 := roundTE_le_floor_add_one q
      _ ≤ ⌊r⌋ := by omega
      _ ≤ roundTE r := floor_le_roundTE r
  · have hsub : q - (⌊r⌋ : ℚ) ≤ r - (⌊r⌋ : ℚ) := by linarith
    unfold roundTE
    rw [hf]
    by_cases hq1 : q - (⌊r⌋ : ℚ) < 1/2
    · rw [if_pos hq1]
      split_ifs <;> omega
    · have hr1 : ¬(r - (⌊r⌋ : ℚ) < 1/2) := fun hcon => hq1 (lt_of_le_of_lt hsub hcon)
      rw [if_neg hq1, if_neg hr1]
      by_cases hq2 : 1/2 < q - (⌊r⌋ : ℚ)
      · have hr2 : 1/2 < r - (⌊r⌋ : ℚ) := lt_of_lt_of_le hq2 hsub
        rw [if_pos hq2, if_pos hr2]
      · rw [if_neg hq2]
        split_ifs <;> omega

/-! ## Properties of the binade search -/

theorem natBinade_spec : ∀ (f : ℕ) (q : ℚ), 1 ≤ q → q < 2 ^ f →
    (2:ℚ) ^ natBinade f q ≤ q ∧ q < 2 ^ (natBinade f q + 1) := by
  intro f
  induction f with
  | zero =>
    intro q h1 h2
    norm_num at h2
    exact absurd (lt_of_le_of_lt h1 h2) (by norm_num)
  | succ f ih =>
    intro q h1 h2
    simp only [natBinade]
    split_ifs with h
    · exact ⟨by simpa using h1, by simpa using h⟩
    · push_neg at h
      have hq2 : (1:ℚ) ≤ q / 2 := by linarith
      have hq2b : q / 2 < 2 ^ f := by
        rw [pow_succ] at h2; linarith
      obtain ⟨ha, hb⟩ := ih (q / 2) hq2 hq2b
      constructor
      · rw [pow_succ]; linarith
      · have : q / 2 < 2 ^ (natBinade f (q / 2) + 1) := hb
        rw [pow_succ]; linarith

theorem negBinade_spec : ∀ (f : ℕ) (q : ℚ), 0 < q → q < 1 → 1 ≤ q * 2 ^ f →
    1 ≤ q * 2 ^ negBinade f q ∧ q * 2 ^ negBinade f q < 2 := by
  intro f
  induction f with
  | zero =>
    intro q h0 h1 h2
    norm_num at h2
    exact absurd (lt_of_le_of_lt h2 h1) (by norm_num)
  | succ f ih =>
    intro q h0 h1 h2
    simp only [negBinade]
    split_ifs with h
    · constructor
      · simpa [mul_comm] using h
      · have : q * 2 < 2 := by linarith
        simpa using this
    · push_neg at h
      have h2q : 2 * q < 1 := h
      have hpos : (0:ℚ) < 2 * q := by linarith
      have hfuel : 1 ≤ (2 * q) * 2 ^ f := by
        rw [pow_succ] at h2; linarith [h2]
      obtain ⟨ha, hb⟩ := ih (2 * q) hpos (by linarith) hfuel
      constructor
      · rw [pow_succ]
        calc (1:ℚ) ≤ (2 * q) * 2 ^ negBinade f (2 * q) := ha
          _ = q * (2 ^ negBinade f (2 * q) * 2) := by ring
      · rw [pow_succ]
        calc q * (2 ^ negBinade f (2 * q) * 2) = (2 * q) * 2 ^ negBinade f (2 * q) := by ring
          _ < 2 := hb

theorem rat_le_num (q : ℚ) (h : 0 < q) : q ≤ (q.num : ℚ) := by
  have hden : (1:ℚ) ≤ (q.den : ℚ) := by
    have := q.den_pos
    exact_mod_cast this
  have hnum : (q.num : ℚ) = q * (q.den : ℚ) := by
    rw [mul_comm]
    exact_mod_cast (Rat.den_mul_eq_num q).symm
  nlinarith

theorem rat_lt_two_pow_num (q : ℚ) (h : 1 ≤ q) : q < 2 ^ q.num.natAbs := by
  have h0 : (0:ℚ) < q := lt_of_lt_of_le one_pos h
  have hnum : 0 < q.num := Rat.num_pos.mpr h0
  have h1 : q ≤ (q.num : ℚ) := rat_le_num q h0
  have h2 : (q.num.natAbs : ℚ) < 2 ^ q.num.natAbs := by
    exact_mod_cast Nat.lt_two_pow q.num.natAbs
  have h3 : (q.num : ℚ) = (q.num.natAbs : ℚ) := by
    have hn : ((q.num.natAbs : ℤ) : ℚ) = ((q.num : ℤ) : ℚ) := by
      congr 1
      omega
    exact hn.symm
  linarith

theorem rat_one_le_mul_two_pow_den (q : ℚ) (h : 0 < q) : 1 ≤ q * 2 ^ q.den := by
  have hnum : 0 < q.num := Rat.num_pos.mpr h
  have hden : (0:ℚ) < (q.den : ℚ) := by exact_mod_cast q.den_pos
  have hq : 1 / (q.den : ℚ) ≤ q := by
    rw [div_le_iff₀ hden]
    have : (q.num : ℚ) = q * (q.den : ℚ) := by
      rw [mul_comm]; exact_mod_cast (Rat.den_mul_eq_num q).symm
    have hn1 : (1:ℚ) ≤ (q.num : ℚ) := by exact_mod_cast hnum
    linarith
  have hd2 : (q.den : ℚ) ≤ 2 ^ q.den := by
    exact_mod_cast Nat.le_of_lt (Nat.lt_two_pow q.den)
  have hp : (0:ℚ) < 2 ^ q.den := by positivity
  calc (1:ℚ) = (1 / (q.den : ℚ)) * (q.den : ℚ) := by field_simp
    _ ≤ q * 2 ^ q.den := by
        apply mul_le_mul hq hd2 (le_of_lt hden) (le_of_lt h)

theorem binade_spec {q : ℚ} (hq : 0 < q) :
    (2:ℚ) ^ binade q ≤ q ∧ q < 2 ^ (binade q + 1) := by
  unfold binade
  split_ifs with h
  · obtain ⟨ha, hb⟩ := natBinade_spec q.num.natAbs q h (rat_lt_two_pow_num q h)
    constructor
    · rw [zpow_natCast]; exact ha
    · have : ((natBinade q.num.natAbs q : ℤ) + 1) = ((natBinade q.num.natAbs q + 1 : ℕ) : ℤ) := by
        push_cast; ring
      rw [this, zpow_natCast]; exact hb
  · push_neg at h
    obtain ⟨ha, hb⟩ := negBinade_spec q.den q hq h (rat_one_le_mul_two_pow_den q hq)
    have hp : (0:ℚ) < 2 ^ negBinade q.den q := by positivity
    constructor
    · have heq : (2:ℚ) ^ (-(negBinade q.den q : ℤ)) = 1 / 2 ^ negBinade q.den q := by
        rw [zpow_neg, zpow_natCast, inv_eq_one_div]
      rw [heq, div_le_iff₀ hp]
      linarith [ha]
    · have heq : (2:ℚ) ^ (-(negBinade q.den q : ℤ) + 1) = 2 / 2 ^ negBinade q.den q := by
        rw [zpow_add₀ (two_ne_zero), zpow_neg, zpow_natCast, zpow_one]
        ring
      rw [heq, lt_div_iff₀ hp]
      linarith [hb]

/-! ## Properties of the double rounding `fl` -/

theorem fl_zero : fl 0 = 0 := by simp [fl]

theorem fl_of_pos {q : ℚ} (hq : 0 < q) : fl q = flPos q := by
  rw [fl, if_neg (ne_of_gt hq), if_neg (not_lt.mpr (le_of_lt hq))]

theorem scaled_bounds {q : ℚ} (hq : 0 < q) :
    (2:ℚ) ^ (52:ℤ) ≤ q * 2 ^ (52 - binade q) ∧ q * 2 ^ (52 - binade q) < 2 ^ (53:ℤ) := by
  obtain ⟨h1, h2⟩ := binade_spec hq
  have hp : (0:ℚ) < 2 ^ (52 - binade q) := by positivity
  constructor
  · have hstep : (2:ℚ) ^ (52:ℤ) = 2 ^ binade q * 2 ^ (52 - binade q) := by
      rw [← zpow_add₀ (two_ne_zero)]; congr 1; ring
    rw [hstep]
    exact mul_le_mul_of_nonneg_right h1 hp.le
  · have hstep : (2:ℚ) ^ (53:ℤ) = 2 ^ (binade q + 1) * 2 ^ (52 - binade q) := by
      rw [← zpow_add₀ (two_ne_zero)]; congr 1; ring
    rw [hstep]
    exact mul_lt_mul_of_pos_right h2 hp

theorem flPos_factored {q : ℚ} :
    flPos q - q = ((roundTE (q * 2 ^ (52 - binade q)) : ℚ) - q * 2 ^ (52 - binade q)) *
      2 ^ (binade q - 52) := by
  have hcanc : (2:ℚ) ^ (52 - binade q) * 2 ^ (binade q - 52) = 1 := by
    rw [← zpow_add₀ (two_ne_zero)]
    norm_num
  unfold flPos
  rw [sub_mul, mul_assoc, hcanc, mul_one]

theorem abs_flPos_sub_le {q : ℚ} : |flPos q - q| ≤ 2 ^ (binade q - 53) := by
  rw [flPos_factored, abs_mul, abs_of_pos (a := (2:ℚ) ^ (binade q - 52)) (by positivity)]
  have h1 : |(roundTE (q * 2 ^ (52 - binade q)) : ℚ) - q * 2 ^ (52 - binade q)| ≤ 1/2 :=
    abs_roundTE_sub_le _
  calc |(roundTE (q * 2 ^ (52 - binade q)) : ℚ) - q * 2 ^ (52 - binade q)| *
        2 ^ (binade q - 52)
      ≤ (1/2) * 2 ^ (binade q - 52) := by
        apply mul_le_mul_of_nonneg_right h1 (by positivity)
    _ = 2 ^ (binade q - 53) := by
        rw [show binade q - 53 = -1 + (binade q - 52) by ring, zpow_add₀ (two_ne_zero)]
        norm_num

theorem abs_fl_sub_le {q : ℚ} (hq : 0 < q) : |fl q - q| ≤ 2 ^ (binade q - 53) := by
  rw [fl_of_pos hq]; exact abs_flPos_sub_le

theorem abs_fl_sub_le_rel {q : ℚ} (hq : 0 < q) : |fl q - q| ≤ q / 2 ^ (53:ℕ) := by
  refine le_trans (abs_fl_sub_le hq) ?_
  obtain ⟨h1, _⟩ := binade_spec hq
  have : (2:ℚ) ^ (binade q - 53) = 2 ^ binade q / 2 ^ (53:ℤ) := by
    rw [show binade q - 53 = binade q + -(53:ℤ) by ring, zpow_add₀ (two_ne_zero), zpow_neg]
    ring
  rw [this]
  have h53 : ((2:ℚ) ^ (53:ℤ)) = 2 ^ (53:ℕ) := by norm_num
  rw [h53]
  apply div_le_div_of_nonneg_right h1 (by positivity)

theorem fl_nonneg {q : ℚ} (hq : 0 ≤ q) : 0 ≤ fl q := by
  rcases hq.eq_or_lt with rfl | h
  · rw [fl_zero]
  · have := abs_fl_sub_le_rel h
    rw [abs_le] at this
    have hsmall : q / 2 ^ (53:ℕ) ≤ q := by
      rw [div_le_iff₀ (by positivity)]
      nlinarith
    linarith [this.1]

theorem fl_pos_lower {q : ℚ} (hq : 0 < q) : q - q / 2 ^ (53:ℕ) ≤ fl q := by
  have := abs_fl_sub_le_rel hq
  rw [abs_le] at this
  linarith [this.1]

theorem fl_pos_upper {q : ℚ} (hq : 0 < q) : fl q ≤ q + q / 2 ^ (53:ℕ) := by
  have := abs_fl_sub_le_rel hq
  rw [abs_le] at this
  linarith [this.2]

theorem binade_le_of_lt {q : ℚ} (hq : 0 < q) {c : ℤ} (h : q < 2 ^ c) :
    binade q ≤ c - 1 := by
  obtain ⟨h1, _⟩ := binade_spec hq
  by_contra hcon
  push_neg at hcon
  have hcc : c ≤ binade q := by omega
  have : (2:ℚ) ^ c ≤ 2 ^ binade q := zpow_le_zpow_right₀ one_le_two hcc
  linarith

theorem le_binade_of_le {q : ℚ} (hq : 0 < q) {c : ℤ} (h : (2:ℚ) ^ c ≤ q) :
    c ≤ binade q := by
  obtain ⟨_, h2⟩ := binade_spec hq
  by_contra hcon
  push_neg at hcon
  have hcc : binade q + 1 ≤ c := by omega
  have : (2:ℚ) ^ (binade q + 1) ≤ 2 ^ c := zpow_le_zpow_right₀ one_le_two hcc
  linarith

theorem dyadic_scale {u : ℤ} {t : ℕ} {e : ℤ} {m : ℕ} (hm : (m : ℤ) = 52 - e - t) :
    ((u : ℚ) / 2 ^ t) * 2 ^ (52 - e) = ((u * 2 ^ m : ℤ) : ℚ) := by
  push_cast
  rw [← zpow_natCast (2:ℚ) t, ← zpow_natCast (2:ℚ) m, hm]
  rw [div_eq_mul_inv, ← zpow_neg]
  rw [mul_assoc, ← zpow_add₀ (two_ne_zero)]
  congr 1
  ring_nf

theorem fl_eq_self_of_dyadic {u : ℤ} {t : ℕ} (hu : 0 < u) (h53 : u < 2 ^ 53) :
    fl ((u : ℚ) / 2 ^ t) = (u : ℚ) / 2 ^ t := by
  have hq : 0 < (u : ℚ) / 2 ^ t := by
    apply div_pos _ (by positivity)
    exact_mod_cast hu
  have hqlt : (u : ℚ) / 2 ^ t < 2 ^ ((53:ℤ) - t) := by
    have hnum : (u : ℚ) < 2 ^ (53:ℕ) := by exact_mod_cast h53
    rw [div_lt_iff₀ (by positivity)]
    have hsplit : (2:ℚ) ^ ((53:ℤ) - t) * 2 ^ (t:ℕ) = 2 ^ (53:ℕ) := by
      rw [← zpow_natCast (2:ℚ) t, ← zpow_add₀ (two_ne_zero)]
      have hexp : (53:ℤ) - t + t = 53 := by ring
      rw [hexp]
      norm_num
    rw [hsplit]
    exact hnum
  have hble : binade ((u : ℚ) / 2 ^ t) ≤ 52 - t := by
    have := binade_le_of_lt hq hqlt
    omega
  have hnn : 0 ≤ 52 - binade ((u : ℚ) / 2 ^ t) - t := by omega
  rw [fl_of_pos hq]
  unfold flPos
  rw [dyadic_scale (Int.toNat_of_nonneg hnn), roundTE_intCast]
  push_cast
  rw [← zpow_natCast (2:ℚ) ((52 - binade ((u : ℚ) / 2 ^ t) - t).toNat),
    Int.toNat_of_nonneg hnn, mul_assoc, ← zpow_add₀ (two_ne_zero)]
  have hexp : 52 - binade ((u : ℚ) / 2 ^ t) - t + (binade ((u : ℚ) / 2 ^ t) - 52) = -(t:ℤ) := by
    ring
  rw [hexp, zpow_neg, div_eq_mul_inv]
  congr 1
  rw [zpow_natCast]

theorem fl_intCast {n : ℤ} (h0 : 0 ≤ n) (h53 : n < 2 ^ 53) : fl (n : ℚ) = n := by
  rcases h0.eq_or_lt with rfl | hpos
  · push_cast
    exact fl_zero
  · have := fl_eq_self_of_dyadic (t := 0) hpos h53
    simpa using this

theorem fl_eq_intCast_of_close {q : ℚ} {N : ℤ} (hq : 0 < q) (hq53 : q < 2 ^ (53:ℤ))
    (hclose : |q - N| < 2 ^ (binade q - 53)) : fl q = N := by
  have hble : binade q ≤ 52 := by
    have := binade_le_of_lt hq hq53
    omega
  have hnn : 0 ≤ 52 - binade q := by omega
  set m : ℕ := (52 - binade q).toNat with hmdef
  have hm : (m : ℤ) = 52 - binade q := Int.toNat_of_nonneg hnn
  have h2m : ((2:ℚ) ^ (52 - binade q)) = ((2 ^ m : ℤ) : ℚ) := by
    push_cast
    rw [← zpow_natCast (2:ℚ) m, hm]
  have hsclose : |q * 2 ^ (52 - binade q) - ((N * 2 ^ m : ℤ) : ℚ)| < 1/2 := by
    have hfac : q * 2 ^ (52 - binade q) - ((N * 2 ^ m : ℤ) : ℚ) =
        (q - N) * 2 ^ (52 - binade q) := by
      push_cast
      rw [← zpow_natCast (2:ℚ) m, hm]
      ring
    rw [hfac, abs_mul, abs_of_pos (a := (2:ℚ) ^ (52 - binade q)) (by positivity)]
    calc |q - (N:ℚ)| * 2 ^ (52 - binade q) < 2 ^ (binade q - 53) * 2 ^ (52 - binade q) := by
          apply mul_lt_mul_of_pos_right hclose (by positivity)
      _ = 1/2 := by
          rw [← zpow_add₀ (two_ne_zero)]
          norm_num
  rw [fl_of_pos hq]
  unfold flPos
  rw [roundTE_eq_of_abs_lt hsclose]
  push_cast
  rw [← zpow_natCast (2:ℚ) m, hm, mul_assoc, ← zpow_add₀ (two_ne_zero)]
  have hexp : 52 - binade q + (binade q - 52) = 0 := by ring
  rw [hexp]
  norm_num

theorem binade_mono {q r : ℚ} (hq : 0 < q) (h : q ≤ r) : binade q ≤ binade r := by
  have hr : 0 < r := lt_of_lt_of_le hq h
  obtain ⟨h1, _⟩ := binade_spec hq
  exact le_binade_of_le hr (le_trans h1 h)

theorem two_zpow_le_flPos {q : ℚ} (hq : 0 < q) : (2:ℚ) ^ binade q ≤ flPos q := by
  obtain ⟨hs1, _⟩ := scaled_bounds hq
  unfold flPos
  have hfloor : (2:ℤ) ^ (52:ℕ) ≤ ⌊q * 2 ^ (52 - binade q)⌋ := by
    rw [Int.le_floor]
    push_cast
    calc ((2:ℚ) ^ (52:ℕ)) = (2:ℚ) ^ (52:ℤ) := by norm_num
      _ ≤ q * 2 ^ (52 - binade q) := hs1
  have hrte : (2:ℤ) ^ (52:ℕ) ≤ roundTE (q * 2 ^ (52 - binade q)) :=
    le_trans hfloor (floor_le_roundTE _)
  calc (2:ℚ) ^ binade q = ((2:ℤ)^(52:ℕ) : ℚ) * 2 ^ (binade q - 52) := by
        push_cast
        rw [show ((2:ℚ) ^ (52:ℕ)) = (2:ℚ) ^ (52:ℤ) by norm_num,
          ← zpow_add₀ (two_ne_zero)]
        congr 1
        ring
    _ ≤ (roundTE (q * 2 ^ (52 - binade q)) : ℚ) * 2 ^ (binade q - 52) := by
        apply mul_le_mul_of_nonneg_right _ (by positivity)
        exact_mod_cast hrte

theorem flPos_le_two_zpow {q : ℚ} (hq : 0 < q) : flPos q ≤ (2:ℚ) ^ (binade q + 1) := by
  obtain ⟨_, hs2⟩ := scaled_bounds hq
  unfold flPos
  have hfloor : ⌊q * 2 ^ (52 - binade q)⌋ ≤ (2:ℤ) ^ (53:ℕ) - 1 := by
    have : ⌊q * 2 ^ (52 - binade q)⌋ < (2:ℤ) ^ (53:ℕ) := by
      rw [Int.floor_lt]
      push_cast
      calc q * 2 ^ (52 - binade q) < 2 ^ (53:ℤ) := hs2
        _ = ((2:ℚ) ^ (53:ℕ)) := by norm_num
    omega
  have hrte : roundTE (q * 2 ^ (52 - binade q)) ≤ (2:ℤ) ^ (53:ℕ) := by
    have := roundTE_le_floor_add_one (q * 2 ^ (52 - binade q))
    omega
  calc (roundTE (q * 2 ^ (52 - binade q)) : ℚ) * 2 ^ (binade q - 52)
      ≤ ((2:ℤ)^(53:ℕ) : ℚ) * 2 ^ (binade q - 52) := by
        apply mul_le_mul_of_nonneg_right _ (by positivity)
        exact_mod_cast hrte
    _ = (2:ℚ) ^ (binade q + 1) := by
        push_cast
        rw [show ((2:ℚ) ^ (53:ℕ)) = (2:ℚ) ^ (53:ℤ) by norm_num,
          ← zpow_add₀ (two_ne_zero)]
        congr 1
        ring

theorem fl_mono {q r : ℚ} (h0 : 0 ≤ q) (h : q ≤ r) : fl q ≤ fl r := by
  rcases h0.eq_or_lt with rfl | hq
  · rw [fl_zero]
    exact fl_nonneg (le_trans h0 h)
  · have hr : 0 < r := lt_of_lt_of_le hq h
    rw [fl_of_pos hq, fl_of_pos hr]
    rcases lt_or_eq_of_le (binade_mono hq h) with hb | hb
    · calc flPos q ≤ 2 ^ (binade q + 1) := flPos_le_two_zpow hq
        _ ≤ 2 ^ binade r := zpow_le_zpow_right₀ one_le_two (by omega)
        _ ≤ flPos r := two_zpow_le_flPos hr
    · unfold flPos
      rw [← hb]
      apply mul_le_mul_of_nonneg_right _ (by positivity)
      have : roundTE (q * 2 ^ (52 - binade q)) ≤ roundTE (r * 2 ^ (52 - binade q)) := by
        apply roundTE_mono
        apply mul_le_mul_of_nonneg_right h (by positivity)
      exact_mod_cast this

/-! ## Arithmetic facts about the engine on valid profiles -/

section RatKernelEval

attribute [local semireducible] Rat.mul Rat.inv Rat.add Rat.sub

theorem fl12c_val : fl12c = 5404319552844595 / 2 ^ 52 := by decide

theorem fl08c_val : fl08c = 7205759403792794 / 2 ^ 53 := by decide

theorem fl13c_val : fl13c = 5854679515581645 / 2 ^ 52 := by decide

end RatKernelEval

theorem fl_pos {q : ℚ} (hq : 0 < q) : 0 < fl q := by
  have hl := fl_pos_lower hq
  have hd : q / 2 ^ (53:ℕ) < q := div_lt_self hq (by norm_num)
  linarith

theorem fl_le_double {q B : ℚ} (hq : 0 < q) (h : q ≤ B) : fl q ≤ 2 * B := by
  have hu := fl_pos_upper hq
  have hd : q / 2 ^ (53:ℕ) ≤ q := div_le_self hq.le (by norm_num)
  linarith

theorem round_nonneg_of_nonneg {x : ℚ} (hx : 0 ≤ x) : 0 ≤ round x := by
  rw [round_eq]
  exact Int.floor_nonneg.mpr (by linarith)

theorem round_le_add_half (x : ℚ) : (round x : ℚ) ≤ x + 1/2 := by
  rw [round_eq]
  exact_mod_cast Int.floor_le (x + 1/2)

theorem half_sub_le_round (x : ℚ) : x - 1/2 ≤ (round x : ℚ) := by
  rw [round_eq]
  have := Int.lt_floor_add_one (x + 1/2)
  push_cast at this ⊢
  linarith

theorem round_mono_rat {x y : ℚ} (h : x ≤ y) : round x ≤ round y := by
  rw [round_eq, round_eq]
  exact Int.floor_mono (by linarith)

theorem baseCoverage_eq (p : Profile) (hi0 : 0 ≤ p.income) (hiu : p.income ≤ 10000000) :
    baseCoverage p = ((p.income * 10 : ℤ) : ℚ) := by
  unfold baseCoverage
  have hcast : (p.income : ℚ) * 10 = ((p.income * 10 : ℤ) : ℚ) := by push_cast; ring
  rw [hcast, fl_intCast (by omega) (by omega)]

theorem covAfterDependents_eq (p : Profile) (hi0 : 0 ≤ p.income) (hiu : p.income ≤ 10000000)
    (hd0 : 0 ≤ p.dependents) (hdu : p.dependents ≤ 10) :
    covAfterDependents p = ((p.income * 10 + p.dependents * 250000 : ℤ) : ℚ) := by
  have hbase := baseCoverage_eq p hi0 hiu
  unfold covAfterDependents
  split_ifs with hd
  · have hcast : (p.dependents : ℚ) * 250000 = ((p.dependents * 250000 : ℤ) : ℚ) := by
      push_cast; ring
    rw [hcast, fl_intCast (by omega) (by omega), hbase]
    have hsum : ((p.income * 10 : ℤ) : ℚ) + ((p.dependents * 250000 : ℤ) : ℚ) =
        ((p.income * 10 + p.dependents * 250000 : ℤ) : ℚ) := by push_cast; ring
    rw [hsum, fl_intCast (by omega) (by omega)]
  · push_neg at hd
    have hdz : p.dependents = 0 := le_antisymm hd hd0
    rw [hbase, hdz]
    push_cast
    ring

theorem covAfterAge_range {p : Profile} (h1 : 0 < covAfterDependents p)
    (h2 : covAfterDependents p ≤ 102500000) :
    0 < covAfterAge p ∧ covAfterAge p ≤ 277000000 := by
  have h12 : (0:ℚ) < fl12c ∧ fl12c ≤ 13/10 := by rw [fl12c_val]; norm_num
  have h08 : (0:ℚ) < fl08c ∧ fl08c ≤ 1 := by rw [fl08c_val]; norm_num
  unfold covAfterAge
  split_ifs
  · constructor
    · exact fl_pos (mul_pos h1 h12.1)
    · have : covAfterDependents p * fl12c ≤ 102500000 * (13/10) := by
        apply mul_le_mul h2 h12.2 h12.1.le (by norm_num)
      calc fl (covAfterDependents p * fl12c) ≤ 2 * (102500000 * (13/10)) :=
            fl_le_double (mul_pos h1 h12.1) this
        _ ≤ 277000000 := by norm_num
  · constructor
    · exact fl_pos (mul_pos h1 h08.1)
    · have : covAfterDependents p * fl08c ≤ 102500000 * 1 := by
        apply mul_le_mul h2 h08.2 h08.1.le (by norm_num)
      calc fl (covAfterDependents p * fl08c) ≤ 2 * (102500000 * 1) :=
            fl_le_double (mul_pos h1 h08.1) this
        _ ≤ 277000000 := by norm_num
  · exact ⟨h1, by linarith⟩

theorem covAfterRisk_range {p : Profile} (h1 : 0 < covAfterAge p)
    (h2 : covAfterAge p ≤ 277000000) :
    0 < covAfterRisk p ∧ covAfterRisk p ≤ 800000000 := by
  have h13 : (0:ℚ) < fl13c ∧ fl13c ≤ 27/20 := by rw [fl13c_val]; norm_num
  have h08 : (0:ℚ) < fl08c ∧ fl08c ≤ 1 := by rw [fl08c_val]; norm_num
  unfold covAfterRisk
  split_ifs
  · constructor
    · exact fl_pos (mul_pos h1 h08.1)
    · have : covAfterAge p * fl08c ≤ 277000000 * 1 := by
        apply mul_le_mul h2 h08.2 h08.1.le (by norm_num)
      calc fl (covAfterAge p * fl08c) ≤ 2 * (277000000 * 1) :=
            fl_le_double (mul_pos h1 h08.1) this
        _ ≤ 800000000 := by norm_num
  · exact ⟨h1, by linarith⟩
  · constructor
    · exact fl_pos (mul_pos h1 h13.1)
    · have : covAfterAge p * fl13c ≤ 277000000 * (27/20) := by
        apply mul_le_mul h2 h13.2 h13.1.le (by norm_num)
      calc fl (covAfterAge p * fl13c) ≤ 2 * (277000000 * (27/20)) :=
            fl_le_double (mul_pos h1 h13.1) this
        _ ≤ 800000000 := by norm_num
  · exact ⟨h1, by linarith⟩

theorem covAfterRisk_range_of_valid (p : Profile) (h : ValidProfile p) :
    0 < covAfterRisk p ∧ covAfterRisk p ≤ 800000000 := by
  obtain ⟨_, _, hi0, hiu, hd0, hdu, _⟩ := h
  have hcd := covAfterDependents_eq p (by omega) hiu hd0 hdu
  have hB0 : (0:ℤ) < p.income * 10 + p.dependents * 250000 := by nlinarith
  have hBu : p.income * 10 + p.dependents * 250000 ≤ (102500000:ℤ) := by nlinarith
  have h1 : 0 < covAfterDependents p := by
    rw [hcd]; exact_mod_cast hB0
  have h2 : covAfterDependents p ≤ 102500000 := by
    rw [hcd]; exact_mod_cast hBu
  obtain ⟨ha1, ha2⟩ := covAfterAge_range h1 h2
  exact covAfterRisk_range ha1 ha2

/-- On valid profiles the final multiplication by 1000 is exact, so the
coverage double equals the integer `coverageRounded p * 1000`. -/
theorem coverageAmount_eq (p : Profile) (h : ValidProfile p) :
    coverageAmount p = ((coverageRounded p * 1000 : ℤ) : ℚ) := by
  obtain ⟨hc0, hcB⟩ := covAfterRisk_range_of_valid p h
  have hx0 : 0 ≤ fl (covAfterRisk p / 1000) := fl_nonneg (by positivity)
  have hxB : fl (covAfterRisk p / 1000) ≤ 1600000 := by
    have hdiv : covAfterRisk p / 1000 ≤ 800000 := by linarith [hcB]
    calc fl (covAfterRisk p / 1000) ≤ 2 * 800000 :=
          fl_le_double (by positivity) hdiv
      _ = 1600000 := by norm_num
  have hn0 : 0 ≤ coverageRounded p := round_nonneg_of_nonneg hx0
  have hnB : coverageRounded p ≤ 1600001 := by
    have := round_le_add_half (fl (covAfterRisk p / 1000))
    have hq : (coverageRounded p : ℚ) ≤ 1600001 := by
      unfold coverageRounded
      linarith
    exact_mod_cast hq
  unfold coverageAmount
  have hcast : (coverageRounded p : ℚ) * 1000 = ((coverageRounded p * 1000 : ℤ) : ℚ) := by
    push_cast; ring
  rw [hcast, fl_intCast (by omega) (by omega)]

/-! ## Error propagation for the exact-arithmetic comparison (C5) -/

theorem err_weaken {a b e1 e2 : ℚ} (h : |a - b| ≤ b * e1) (he : e1 ≤ e2) (hb : 0 ≤ b) :
    |a - b| ≤ b * e2 :=
  le_trans h (mul_le_mul_of_nonneg_left he hb)

/-- One engine stage: multiplying an approximate running value by an
approximate constant and rounding the product to a double keeps the
result within a slightly larger relative error of the exact product. -/
theorem stage_err {x xe m me e1 e2 : ℚ} (hxe : 0 < xe) (hme : 0 < me)
    (hx : |x - xe| ≤ xe * e1) (hmc : |m - me| ≤ me * e2)
    (he1 : 0 ≤ e1) (he1b : e1 ≤ 1/2^40) (he2 : 0 ≤ e2) (he2b : e2 ≤ 1/2^40) :
    |fl (x * m) - xe * me| ≤ (xe * me) * (e1 + e2 + 1/2^52) := by
  rw [abs_le] at hx hmc
  have hpm : 0 < xe * me := mul_pos hxe hme
  have hxe1 : xe * e1 ≤ xe * (1/2) :=
    mul_le_mul_of_nonneg_left (by linarith : e1 ≤ (1:ℚ)/2) hxe.le
  have hme2 : me * e2 ≤ me * (1/2) :=
    mul_le_mul_of_nonneg_left (by linarith : e2 ≤ (1:ℚ)/2) hme.le
  have hxpos : 0 < x := by linarith
  have hmpos : 0 < m := by linarith
  have hx1 : xe * (1 - e1) ≤ x := by
    have hexp : xe * (1 - e1) = xe - xe * e1 := by ring
    linarith [hexp.le, hexp.ge]
  have hm1 : me * (1 - e2) ≤ m := by
    have hexp : me * (1 - e2) = me - me * e2 := by ring
    linarith [hexp.le, hexp.ge]
  have hx2 : x ≤ xe * (1 + e1) := by
    have hexp : xe * (1 + e1) = xe + xe * e1 := by ring
    linarith [hexp.le, hexp.ge]
  have hm2 : m ≤ me * (1 + e2) := by
    have hexp : me * (1 + e2) = me + me * e2 := by ring
    linarith [hexp.le, hexp.ge]
  have hm1n : 0 ≤ me * (1 - e2) := by
    have hexp : me * (1 - e2) = me - me * e2 := by ring
    linarith [hexp.le, hexp.ge]
  have hub : x * m ≤ xe * me * ((1 + e1) * (1 + e2)) := by
    have hmm := mul_le_mul hx2 hm2 hmpos.le
      (le_trans hxe.le (by linarith [hx2] : xe ≤ xe * (1 + e1)))
    calc x * m ≤ xe * (1 + e1) * (me * (1 + e2)) := hmm
      _ = xe * me * ((1 + e1) * (1 + e2)) := by ring
  have hlb : xe * me * ((1 - e1) * (1 - e2)) ≤ x * m := by
    have hmm := mul_le_mul hx1 hm1 hm1n hxpos.le
    calc xe * me * ((1 - e1) * (1 - e2)) = xe * (1 - e1) * (me * (1 - e2)) := by ring
      _ ≤ x * m := hmm
  have he12 : e1 * e2 ≤ 1/2^80 := by
    calc e1 * e2 ≤ (1/2^40) * (1/2^40) := mul_le_mul he1b he2b he2 (by norm_num)
      _ = 1/2^80 := by norm_num
  have he12n : 0 ≤ e1 * e2 := mul_nonneg he1 he2
  have hT1 : |x * m - xe * me| ≤ xe * me * (e1 + e2 + e1 * e2) := by
    rw [abs_le]
    have hu : xe * me * ((1 + e1) * (1 + e2)) = xe * me + xe * me * (e1 + e2 + e1 * e2) := by
      ring
    have hl : xe * me * ((1 - e1) * (1 - e2)) = xe * me - xe * me * (e1 + e2 - e1 * e2) := by
      ring
    have hmono : xe * me * (e1 + e2 - e1 * e2) ≤ xe * me * (e1 + e2 + e1 * e2) :=
      mul_le_mul_of_nonneg_left (by linarith) hpm.le
    constructor
    · linarith [hlb, hl.le, hl.ge]
    · linarith [hub, hu.le, hu.ge]
  have hT2 : |fl (x * m) - x * m| ≤ xe * me * ((1 + e1) * (1 + e2)) / 2^53 := by
    refine le_trans (abs_fl_sub_le_rel (mul_pos hxpos hmpos)) ?_
    apply div_le_div_of_nonneg_right hub
    positivity
  have htri : |fl (x * m) - xe * me| ≤ |fl (x * m) - x * m| + |x * m - xe * me| :=
    abs_sub_le _ _ _
  have hkey : (1 + e1) * (1 + e2) / 2^53 + e1 * e2 ≤ 1/2^52 := by
    have hA : (1 + e1) * (1 + e2) ≤ 1 + 3/2^40 := by
      have hexp : (1 + e1) * (1 + e2) = 1 + e1 + e2 + e1 * e2 := by ring
      rw [hexp]
      have h40 : (1:ℚ)/2^80 ≤ 1/2^40 := by norm_num
      linarith
    have hB : (1 + e1) * (1 + e2) / 2^53 ≤ (1 + 3/2^40) / 2^53 :=
      div_le_div_of_nonneg_right hA (by positivity)
    have hC : (1 + 3/(2:ℚ)^40) / 2^53 + 1/2^80 ≤ 1/2^52 := by norm_num
    linarith
  have hcomb : xe * me * ((1 + e1) * (1 + e2)) / 2^53 + xe * me * (e1 + e2 + e1 * e2) ≤
      (xe * me) * (e1 + e2 + 1/2^52) := by
    have hfac : xe * me * ((1 + e1) * (1 + e2)) / 2^53 + xe * me * (e1 + e2 + e1 * e2) -
        (xe * me) * (e1 + e2 + 1/2^52) =
        xe * me * ((1 + e1) * (1 + e2) / 2^53 + e1 * e2 - 1/2^52) := by
      ring
    have hneg : xe * me * ((1 + e1) * (1 + e2) / 2^53 + e1 * e2 - 1/2^52) ≤ 0 :=
      mul_nonpos_of_nonneg_of_nonpos hpm.le (by linarith)
    linarith [hfac.le, hfac.ge]
  linarith

/-- Numeric facts about the double constant for 1.2: its absolute error,
its relative error, and crude bounds. -/
theorem fl12c_props : |fl12c - 6/5| ≤ 1/(5 * 2^52) ∧ |fl12c - 6/5| ≤ (6/5) * (1/2^54) ∧
    4/5 < fl12c ∧ fl12c ≤ 3/2 := by
  rw [fl12c_val]
  refine ⟨?_, ?_, by norm_num, by norm_num⟩ <;> (rw [abs_le]; constructor <;> norm_num)

/-- Numeric facts about the double constant for 0.8. -/
theorem fl08c_props : |fl08c - 4/5| ≤ 1/(5 * 2^52) ∧ |fl08c - 4/5| ≤ (4/5) * (1/2^54) ∧
    4/5 < fl08c ∧ fl08c ≤ 3/2 := by
  rw [fl08c_val]
  refine ⟨?_, ?_, by norm_num, by norm_num⟩ <;> (rw [abs_le]; constructor <;> norm_num)

/-- Numeric facts about the double constant for 1.3. -/
theorem fl13c_props : |fl13c - 13/10| ≤ 1/(5 * 2^52) ∧ |fl13c - 13/10| ≤ (13/10) * (1/2^54) ∧
    4/5 < fl13c ∧ fl13c ≤ 3/2 := by
  rw [fl13c_val]
  refine ⟨?_, ?_, by norm_num, by norm_num⟩ <;> (rw [abs_le]; constructor <;> norm_num)

/-- Multiplying an exactly represented integer by one of the engine's
double constants rounds to the exact integer product whenever that
product is an integer: the constant's error, at most one part in
`5 * 2^52`, stays strictly below half an ulp of the result because every
constant exceeds 4/5. -/
theorem fl_int_mul_exact (X N : ℤ) (m me : ℚ) (hX : 0 < X) (hXb : X ≤ 2^40)
    (herr : |m - me| ≤ 1/(5 * 2^52)) (hm45 : 4/5 < m) (hmub : m ≤ 3/2)
    (hN : (N:ℚ) = (X:ℚ) * me) :
    fl ((X:ℚ) * m) = (N:ℚ) := by
  have hXq : (0:ℚ) < X := by exact_mod_cast hX
  have hXqb : (X:ℚ) ≤ 2^40 := by exact_mod_cast hXb
  have hz : 0 < (X:ℚ) * m := mul_pos hXq (by linarith)
  have hz53 : (X:ℚ) * m < 2^(53:ℤ) := by
    have hb : (X:ℚ) * m ≤ 2^40 * (3/2) :=
      mul_le_mul hXqb hmub (by linarith) (by positivity)
    have hconv : ((2:ℚ)^(53:ℤ)) = 2^(53:ℕ) := by norm_num
    rw [hconv]
    calc (X:ℚ) * m ≤ 2^40 * (3/2) := hb
      _ < 2^(53:ℕ) := by norm_num
  have hbz : 2*(X:ℚ)/5 < 2^(binade ((X:ℚ)*m)) := by
    obtain ⟨_, h2⟩ := binade_spec hz
    have hsplit : (2:ℚ) ^ (binade ((X:ℚ)*m) + 1) = 2 * 2 ^ binade ((X:ℚ)*m) := by
      rw [zpow_add_one₀ (two_ne_zero)]
      ring
    rw [hsplit] at h2
    have hlow : (4:ℚ)/5 * X < (X:ℚ) * m := by
      have hmul := mul_lt_mul_of_pos_left hm45 hXq
      calc (4:ℚ)/5 * X = X * (4/5) := by ring
        _ < X * m := hmul
    linarith
  apply fl_eq_intCast_of_close hz hz53
  have herr2 : |(X:ℚ)*m - (N:ℚ)| ≤ (X:ℚ)/(5 * 2^52) := by
    rw [hN]
    have hfac : (X:ℚ)*m - (X:ℚ)*me = X*(m - me) := by ring
    rw [hfac, abs_mul, abs_of_pos hXq]
    calc (X:ℚ) * |m - me| ≤ X * (1/(5 * 2^52)) :=
          mul_le_mul_of_nonneg_left herr hXq.le
      _ = (X:ℚ)/(5 * 2^52) := by ring
  have hulp : (X:ℚ)/(5 * 2^52) < 2 ^ (binade ((X:ℚ)*m) - 53) := by
    have hsplit : (2:ℚ) ^ (binade ((X:ℚ)*m) - 53) = 2 ^ binade ((X:ℚ)*m) / 2^(53:ℕ) := by
      rw [show binade ((X:ℚ)*m) - 53 = binade ((X:ℚ)*m) + -(53:ℤ) by ring,
        zpow_add₀ (two_ne_zero), zpow_neg]
      norm_num
      ring
    rw [hsplit]
    have hx2 : (X:ℚ)/(5 * 2^52) = (2*X/5) / 2^(53:ℕ) := by ring
    rw [hx2]
    gcongr
  exact lt_of_le_of_lt herr2 hulp

/-- Stability of round-half-up: if the exact quotient has denominator
dividing 100000 and is not exactly a half-integer, any approximation
within 1/200000 rounds to the same integer. -/
theorem round_eq_of_near {x y : ℚ} (M : ℤ) (hden : y = (M:ℚ) / 100000)
    (hnothalf : ∀ k : ℤ, y ≠ (k:ℚ) + 1/2) (hclose : |x - y| < 1/200000) :
    round x = round y := by
  rw [abs_lt] at hclose
  rw [round_eq, round_eq]
  have hj1 : ((⌊y + 1/2⌋ : ℤ) : ℚ) ≤ y + 1/2 := Int.floor_le _
  have hj2 : y + 1/2 < (⌊y + 1/2⌋ : ℚ) + 1 := Int.lt_floor_add_one _
  have hne : ((⌊y + 1/2⌋ : ℤ) : ℚ) ≠ y + 1/2 := by
    intro heq
    exact hnothalf (⌊y + 1/2⌋ - 1) (by push_cast; linarith)
  have hgap1 : ((⌊y + 1/2⌋ : ℤ) : ℚ) + 1/100000 ≤ y + 1/2 := by
    have hrep : y + 1/2 - (⌊y + 1/2⌋ : ℚ) =
        ((M + 50000 - 100000 * ⌊y + 1/2⌋ : ℤ) : ℚ) / 100000 := by
      rw [hden]; push_cast; ring
    have hpos : (0:ℚ) < ((M + 50000 - 100000 * ⌊y + 1/2⌋ : ℤ) : ℚ) / 100000 := by
      rw [← hrep]
      rcases lt_or_eq_of_le hj1 with hlt | heq
      · linarith
      · exact absurd heq hne
    have hint : (1:ℤ) ≤ M + 50000 - 100000 * ⌊y + 1/2⌋ := by
      by_contra hcon
      push_neg at hcon
      have : (M + 50000 - 100000 * ⌊y + 1/2⌋ : ℤ) ≤ 0 := by omega
      have : ((M + 50000 - 100000 * ⌊y + 1/2⌋ : ℤ) : ℚ) ≤ 0 := by exact_mod_cast this
      have : ((M + 50000 - 100000 * ⌊y + 1/2⌋ : ℤ) : ℚ) / 100000 ≤ 0 := by linarith
      linarith
    have : (1:ℚ) ≤ ((M + 50000 - 100000 * ⌊y + 1/2⌋ : ℤ) : ℚ) := by exact_mod_cast hint
    have hge : y + 1/2 - (⌊y + 1/2⌋ : ℚ) ≥ 1/100000 := by
      rw [hrep]
      linarith
    linarith
  have hgap2 : y + 1/2 + 1/100000 ≤ ((⌊y + 1/2⌋ : ℤ) : ℚ) + 1 := by
    have hrep : (⌊y + 1/2⌋ : ℚ) + 1 - (y + 1/2) =
        ((100000 * ⌊y + 1/2⌋ + 100000 - M - 50000 : ℤ) : ℚ) / 100000 := by
      rw [hden]; push_cast; ring
    have hpos : (0:ℚ) < ((100000 * ⌊y + 1/2⌋ + 100000 - M - 50000 : ℤ) : ℚ) / 100000 := by
      rw [← hrep]
      linarith
    have hint : (1:ℤ) ≤ 100000 * ⌊y + 1/2⌋ + 100000 - M - 50000 := by
      by_contra hcon
      push_neg at hcon
      have h0 : (100000 * ⌊y + 1/2⌋ + 100000 - M - 50000 : ℤ) ≤ 0 := by omega
      have h0q : ((100000 * ⌊y + 1/2⌋ + 100000 - M - 50000 : ℤ) : ℚ) ≤ 0 := by
        exact_mod_cast h0
      have : ((100000 * ⌊y + 1/2⌋ + 100000 - M - 50000 : ℤ) : ℚ) / 100000 ≤ 0 := by linarith
      linarith
    have hq : (1:ℚ) ≤ ((100000 * ⌊y + 1/2⌋ + 100000 - M - 50000 : ℤ) : ℚ) := by
      exact_mod_cast hint
    have hge : (⌊y + 1/2⌋ : ℚ) + 1 - (y + 1/2) ≥ 1/100000 := by
      rw [hrep]
      linarith
    linarith
  have : ⌊x + 1/2⌋ = ⌊y + 1/2⌋ := by
    rw [Int.floor_eq_iff]
    · constructor
      · linarith
      · linarith
  rw [this]

/-- Final comparison step for C5: if the float coverage is within
relative error `2^-50` of the exact coverage, agrees with it exactly
whenever the exact value sits on a 500-mod-1000 rounding boundary, and
the exact value times 100 is an integer, then rounding
`coverage/1000` in doubles gives the exact round-half-up result. -/
theorem round_fl_div_1000 (cf ce : ℚ) (hce : 0 < ce) (hceB : ce ≤ 160000000)
    (M : ℤ) (hden : ce * 100 = (M:ℚ))
    (herr : |cf - ce| ≤ ce * (1/2^50))
    (hhalfexact : ∀ K : ℤ, ce = 1000*(K:ℚ) + 500 → cf = ce) :
    round (fl (cf / 1000)) = round (ce / 1000) := by
  by_cases hhalf : ∃ K : ℤ, ce = 1000*(K:ℚ) + 500
  · obtain ⟨K, hK⟩ := hhalf
    rw [hhalfexact K hK, hK]
    have hK0 : 0 ≤ K := by
      by_contra hc
      push_neg at hc
      have hc1 : K ≤ -1 := by omega
      have hc2 : (K:ℚ) ≤ -1 := by exact_mod_cast hc1
      rw [hK] at hce
      linarith
    have hKB : K ≤ 160000 := by
      have hq : (1000*(K:ℚ) + 500) ≤ 160000000 := hK ▸ hceB
      have hq2 : (K:ℚ) ≤ 160000 := by linarith
      exact_mod_cast hq2
    have hrepr : (1000*(K:ℚ) + 500)/1000 = ((2*K + 1 : ℤ):ℚ)/2^(1:ℕ) := by
      push_cast
      ring
    rw [hrepr, fl_eq_self_of_dyadic (by omega) (by omega)]
  · push_neg at hhalf
    rw [abs_le] at herr
    have hsmall : ce * (1/2^50) ≤ ce * (1/2) :=
      mul_le_mul_of_nonneg_left (by norm_num) hce.le
    have hcf0 : 0 < cf := by linarith
    have hcfB : cf ≤ 2 * ce := by linarith
    have hx : |fl (cf/1000) - ce/1000| < 1/200000 := by
      have h1 : |fl (cf/1000) - cf/1000| ≤ (cf/1000)/2^53 :=
        abs_fl_sub_le_rel (by positivity)
      have h1b : (cf/1000)/2^53 ≤ (2*ce/1000)/2^53 := by linarith
      have h2 : |cf/1000 - ce/1000| ≤ (ce/1000) * (1/2^50) := by
        rw [abs_le]
        constructor <;> linarith
      have htri : |fl (cf/1000) - ce/1000| ≤
          |fl (cf/1000) - cf/1000| + |cf/1000 - ce/1000| := abs_sub_le _ _ _
      have hnum : (2*ce/1000)/2^53 + (ce/1000) * (1/2^50) < 1/200000 := by
        have hceB2 : ce/1000 ≤ 160000 := by linarith
        have e1 : (2*ce/1000)/2^53 = (ce/1000) * (2/2^53) := by ring
        have e2 : (ce/1000) * (2/2^53) + (ce/1000) * (1/2^50) =
            (ce/1000) * (2/2^53 + 1/2^50) := by ring
        have e3 : (ce/1000) * (2/2^53 + 1/2^50) ≤ 160000 * (2/2^53 + 1/2^50) :=
          mul_le_mul_of_nonneg_right hceB2 (by norm_num)
        have e4 : (160000:ℚ) * (2/2^53 + 1/2^50) < 1/200000 := by norm_num
        linarith
      linarith
    have hden2 : ce/1000 = (M:ℚ)/100000 := by
      field_simp at hden ⊢
      linarith
    have hnothalf : ∀ k : ℤ, ce/1000 ≠ (k:ℚ) + 1/2 := by
      intro k hk
      exact hhalf k (by linear_combination 1000 * hk)
    exact round_eq_of_near M hden2 hnothalf hx

/-- The value of the exact base coverage: ten times the integer
`income + 25000 * dependents`. -/
theorem exactBase_eq (p : Profile) :
    exactBase p = ((10 * (p.income + 25000 * p.dependents) : ℤ):ℚ) := by
  unfold exactBase
  push_cast
  ring

/-- On every valid profile the age stage of the engine is exact: the base
coverage is a multiple of ten, so the exact age-adjusted coverage is an
even integer, and the double multiplication rounds to exactly it. -/
theorem covAfterAge_exact (p : Profile) (h : ValidProfile p) :
    ∃ N1 : ℤ, covAfterAge p = (N1:ℚ) ∧ exactAfterAge p = (N1:ℚ) ∧
      2 ∣ N1 ∧ 160000 ≤ N1 ∧ N1 ≤ 123000000 := by
  obtain ⟨_, _, hi0, hiu, hd0, hdu, _⟩ := h
  have hcd : covAfterDependents p = ((10 * (p.income + 25000 * p.dependents) : ℤ):ℚ) := by
    rw [covAfterDependents_eq p (by omega) hiu hd0 hdu]
    congr 1
    ring
  have hbe := exactBase_eq p
  have hu0 : 20000 ≤ p.income + 25000 * p.dependents := by omega
  have huB : p.income + 25000 * p.dependents ≤ 10250000 := by omega
  have hB0 : (0:ℤ) < 10 * (p.income + 25000 * p.dependents) := by omega
  have hBb : (10 * (p.income + 25000 * p.dependents) : ℤ) ≤ 2^40 := by omega
  obtain ⟨p12a, _, p12c, p12d⟩ := fl12c_props
  obtain ⟨p08a, _, p08c, p08d⟩ := fl08c_props
  unfold covAfterAge exactAfterAge
  split_ifs
  · refine ⟨12 * (p.income + 25000 * p.dependents), ?_, ?_, by omega, by omega, by omega⟩
    · rw [hcd]
      exact fl_int_mul_exact _ _ fl12c (6/5) hB0 hBb p12a p12c p12d (by push_cast; ring)
    · rw [hbe]
      push_cast
      ring
  · refine ⟨8 * (p.income + 25000 * p.dependents), ?_, ?_, by omega, by omega, by omega⟩
    · rw [hcd]
      exact fl_int_mul_exact _ _ fl08c (4/5) hB0 hBb p08a p08c p08d (by push_cast; ring)
    · rw [hbe]
      push_cast
      ring
  · exact ⟨10 * (p.income + 25000 * p.dependents), hcd, hbe, by omega, by omega, by omega⟩

/-- Core of C5: on every valid profile the integer the engine feeds into
the final multiplication equals the exact round-half-up of the exact
coverage divided by 1000. -/
theorem coverageRounded_eq_exact (p : Profile) (h : ValidProfile p) :
    coverageRounded p = round (exactCoverage p / 1000) := by
  have hr := h.2.2.2.2.2.2
  obtain ⟨N1, hca, hea, hpar, hlo, hhi⟩ := covAfterAge_exact p h
  obtain ⟨p08a, p08b, p08c, p08d⟩ := fl08c_props
  obtain ⟨p13a, p13b, p13c, p13d⟩ := fl13c_props
  have hN1i0 : (0:ℤ) < N1 := by omega
  have hN1q0 : (0:ℚ) < (N1:ℚ) := by exact_mod_cast hN1i0
  have hN1qB : (N1:ℚ) ≤ 123000000 := by exact_mod_cast hhi
  have hself : |(N1:ℚ) - (N1:ℚ)| ≤ (N1:ℚ) * (0:ℚ) := by simp
  unfold coverageRounded
  rcases hr with hL | hM | hH
  · have hcr : covAfterRisk p = fl ((N1:ℚ) * fl08c) := by
      unfold covAfterRisk
      rw [hL, if_pos rfl, hca]
    have hce : exactCoverage p = (N1:ℚ) * (4/5) := by
      unfold exactCoverage
      rw [hL, if_pos rfl, hea]
    rw [hcr, hce]
    apply round_fl_div_1000 _ _ (by linarith) (by linarith) (80 * N1)
      (by push_cast; ring)
    · have hstage := stage_err hN1q0 (by norm_num : (0:ℚ) < 4/5) hself p08b
        (le_refl 0) (by norm_num) (by norm_num) (by norm_num)
      refine err_weaken hstage (by norm_num) (by linarith)
    · intro K hK
      exfalso
      have hq : (4 * N1 : ℚ) = 5000*(K:ℚ) + 2500 := by linear_combination 5 * hK
      have hz : (4 * N1 : ℤ) = 5000*K + 2500 := by exact_mod_cast hq
      omega
  · have hcr : covAfterRisk p = (N1:ℚ) := by
      unfold covAfterRisk
      rw [hM, if_neg (by decide), if_pos rfl, hca]
    have hce : exactCoverage p = (N1:ℚ) := by
      unfold exactCoverage
      rw [hM, if_neg (by decide), if_pos rfl, hea]
    rw [hcr, hce]
    apply round_fl_div_1000 _ _ hN1q0 (by linarith) (100 * N1) (by push_cast; ring)
    · rw [sub_self, abs_zero]
      positivity
    · intro _ _
      rfl
  · have hcr : covAfterRisk p = fl ((N1:ℚ) * fl13c) := by
      unfold covAfterRisk
      rw [hH, if_neg (by decide), if_neg (by decide), if_pos rfl, hca]
    have hce : exactCoverage p = (N1:ℚ) * (13/10) := by
      unfold exactCoverage
      rw [hH, if_neg (by decide), if_neg (by decide), if_pos rfl, hea]
    rw [hcr, hce]
    apply round_fl_div_1000 _ _ (by linarith) (by linarith) (130 * N1)
      (by push_cast; ring)
    · have hstage := stage_err hN1q0 (by norm_num : (0:ℚ) < 13/10) hself p13b
        (le_refl 0) (by norm_num) (by norm_num) (by norm_num)
      refine err_weaken hstage (by norm_num) (by linarith)
    · intro K hK
      have hq : (13 * N1 : ℚ) = 10000*(K:ℚ) + 5000 := by linear_combination 10 * hK
      have hz : (13 * N1 : ℤ) = 10000*K + 5000 := by exact_mod_cast hq
      have hv10 : (10:ℤ) ∣ N1 := by omega
      obtain ⟨v, hv⟩ := hv10
      have hexact : fl ((N1:ℚ) * fl13c) = ((13 * v : ℤ):ℚ) := by
        apply fl_int_mul_exact N1 (13 * v) fl13c (13/10) hN1i0 (by omega) p13a p13c p13d
        rw [hv]
        push_cast
        ring
      rw [hexact, hv]
      push_cast
      ring

section ClaimEval

attribute [local semireducible] Rat.mul Rat.inv Rat.add Rat.sub

/-- C1: the specification requires every request whose four fields are
present, correctly typed and inside the §3 ranges to pass validation and
reach the engine, in particular `dependents = 0`.  The code violates
this: the presence check `!age || !income || !dependents ||
!riskTolerance` uses JavaScript truthiness, so the integer `0` in
`dependents` is treated as a missing field and the request is rejected
with the missing-fields error, although the profile satisfies every §3
invariant (and the validator's own later check accepts 0 to 10). -/
theorem c1_dependents_zero_rejected :
    ValidProfile { age := 30, income := 75000, dependents := 0, riskTolerance := "Medium" } ∧
    validateRecommendationInput (bodyOfInts 30 75000 0 "Medium") =
      some "Missing required fields" := by
  constructor
  · decide
  · decide

/-- C2: the two end-to-end examples of §8.  The engine (JavaScript double
arithmetic included) maps the Medium example to Term Life, $1,250,000,
20 years with the balanced-profile explanation, and the High example to
Whole Life, $780,000, 30 years. -/
theorem c2_end_to_end_examples :
    getRecommendation { age := 30, income := 75000, dependents := 2, riskTolerance := "Medium" } =
      { type := "Term Life", coverage := "$1,250,000", duration := "20 years",
        explanation := "Balanced profile: standard coverage and term." } ∧
    (getRecommendation { age := 25, income := 50000, dependents := 0, riskTolerance := "High" }).type =
      "Whole Life" ∧
    (getRecommendation { age := 25, income := 50000, dependents := 0, riskTolerance := "High" }).coverage =
      "$780,000" ∧
    (getRecommendation { age := 25, income := 50000, dependents := 0, riskTolerance := "High" }).duration =
      "30 years" := by
  refine ⟨?_, ?_, ?_, ?_⟩ <;> decide

/-- C3 counterexample: the claim says the returned error identifies which
of the four checks (MissingField, InvalidType, OutOfRange, InvalidEnum)
failed.  It does not: a type violation (age given as a string) and a
range violation (age 17) produce the identical error message, so the
error cannot identify which check failed. -/
theorem c3_error_does_not_name_check :
    validateRecommendationInput
      { age := some (.str "seventeen"), income := some (.num 75000),
        dependents := some (.num 2), riskTolerance := some (.str "Medium") } =
      validateRecommendationInput (bodyOfInts 17 75000 2 "Medium") ∧
    validateRecommendationInput (bodyOfInts 17 75000 2 "Medium") =
      some "Age must be an integer between 18 and 80" := by
  constructor
  · decide
  · decide

/-- C3 amended: validation is fail-fast in source order (presence of all
four fields by JavaScript truthiness first, then one combined
type-plus-range check per numeric field in order age, income,
dependents, then the enum check), and each listed invalid input yields
the error of its field; the errors of the four per-field checks are
pairwise distinct and name the offending field, but type and range
violations of one field share a single message, and every presence
failure yields one generic message naming all four required fields
rather than the specific missing one. -/
theorem c3_fail_fast_field_errors :
    validateRecommendationInput (bodyOfInts 17 75000 2 "Medium") =
      some "Age must be an integer between 18 and 80" ∧
    validateRecommendationInput (bodyOfInts 81 75000 2 "Medium") =
      some "Age must be an integer between 18 and 80" ∧
    validateRecommendationInput (bodyOfInts 30 19999 2 "Medium") =
      some "Income must be an integer between 20,000 and 10,000,000" ∧
    validateRecommendationInput (bodyOfInts 30 75000 11 "Medium") =
      some "Dependents must be an integer between 0 and 10" ∧
    validateRecommendationInput (bodyOfInts 30 75000 2 "Unknown") =
      some "Risk tolerance must be Low, Medium, or High" ∧
    validateRecommendationInput
      { age := none, income := some (.num 75000),
        dependents := some (.num 2), riskTolerance := some (.str "Medium") } =
      some "Missing required fields" ∧
    validateRecommendationInput
      { age := some (.num 30), income := none,
        dependents := some (.num 2), riskTolerance := some (.str "Medium") } =
      some "Missing required fields" ∧
    validateRecommendationInput
      { age := some (.num 30), income := some (.num 75000),
        dependents := none, riskTolerance := some (.str "Medium") } =
      some "Missing required fields" ∧
    validateRecommendationInput
      { age := some (.num 30), income := some (.num 75000),
        dependents := some (.num 2), riskTolerance := none } =
      some "Missing required fields" ∧
    validateRecommendationInput (bodyOfInts 17 19999 11 "Unknown") =
      some "Age must be an integer between 18 and 80" ∧
    validateRecommendationInput
      { age := some (.str "seventeen"), income := some (.num 19999),
        dependents := some (.num 2), riskTolerance := some (.str "Medium") } =
      some "Age must be an integer between 18 and 80" ∧
    ("Age must be an integer between 18 and 80" ≠
        "Income must be an integer between 20,000 and 10,000,000" ∧
      "Age must be an integer between 18 and 80" ≠
        "Dependents must be an integer between 0 and 10" ∧
      "Age must be an integer between 18 and 80" ≠
        "Risk tolerance must be Low, Medium, or High" ∧
      "Income must be an integer between 20,000 and 10,000,000" ≠
        "Dependents must be an integer between 0 and 10" ∧
      "Income must be an integer between 20,000 and 10,000,000" ≠
        "Risk tolerance must be Low, Medium, or High" ∧
      "Dependents must be an integer between 0 and 10" ≠
        "Risk tolerance must be Low, Medium, or High") := by
  refine ⟨?_, ?_, ?_, ?_, ?_, ?_, ?_, ?_, ?_, ?_, ?_, ?_⟩ <;> decide

end ClaimEval

/-- C4: whatever the outcome of the database insert, the handler returns
the identical success response carrying the engine's recommendation; a
persistence failure is never surfaced to the caller. -/
theorem c4_persistence_failure_swallowed (p : Profile) (e : String) (id : ℕ) :
    handleRecommendation p (Except.error e) = handleRecommendation p (Except.ok id) ∧
    (handleRecommendation p (Except.error e)).success = true ∧
    (handleRecommendation p (Except.error e)).recommendation = some (getRecommendation p) ∧
    (handleRecommendation p (Except.error e)).errorMsg = none := by
  exact ⟨rfl, rfl, rfl, rfl⟩

/-- C5: for every valid profile the numeric coverage computed by the
engine in JavaScript double arithmetic equals the result of evaluating
steps 1 to 5 of the specification in exact rational arithmetic: the base
and dependent steps are exact integer arithmetic, the age multiplication
always lands on an integer and rounds to it exactly, and the risk
multiplication stays within half an ulp of the exact value by a margin
large enough that the final round-half-up of `coverage/1000` never
changes, rounding boundaries included. -/
theorem c5_exact_double_arithmetic (p : Profile) (h : ValidProfile p) :
    coverageAmount p = ((exactCoverageAmount p : ℤ) : ℚ) := by
  rw [coverageAmount_eq p h]
  unfold exactCoverageAmount
  rw [← coverageRounded_eq_exact p h]

/-- Witness for C5 at a profile exercising the age and risk multipliers. -/
theorem c5_exact_double_arithmetic_witness :
    coverageAmount { age := 25, income := 50000, dependents := 1, riskTolerance := "High" } =
      ((exactCoverageAmount { age := 25, income := 50000, dependents := 1, riskTolerance := "High" } : ℤ) : ℚ) :=
  c5_exact_double_arithmetic _ (by decide)

/-- C6: ages 30 to 50 inclusive receive no age multiplier; the times-1.2
adjustment fires exactly for age below 30 and the times-0.8 adjustment
exactly for age above 50. -/
theorem c6_age_band (p : Profile) :
    (30 ≤ p.age → p.age ≤ 50 → covAfterAge p = covAfterDependents p) ∧
    (p.age < 30 → covAfterAge p = fl (covAfterDependents p * fl12c)) ∧
    (50 < p.age → covAfterAge p = fl (covAfterDependents p * fl08c)) := by
  unfold covAfterAge
  refine ⟨fun h1 h2 => ?_, fun h => ?_, fun h => ?_⟩
  · rw [if_neg (by omega), if_neg (by omega)]
  · rw [if_pos h]
  · rw [if_neg (by omega), if_pos h]

/-- Witness for C6 at the boundary ages 30 and 50. -/
theorem c6_age_band_witness :
    covAfterAge { age := 30, income := 75000, dependents := 2, riskTolerance := "Medium" } =
      covAfterDependents { age := 30, income := 75000, dependents := 2, riskTolerance := "Medium" } ∧
    covAfterAge { age := 50, income := 75000, dependents := 2, riskTolerance := "Medium" } =
      covAfterDependents { age := 50, income := 75000, dependents := 2, riskTolerance := "Medium" } ∧
    covAfterAge { age := 29, income := 75000, dependents := 2, riskTolerance := "Medium" } =
      fl (covAfterDependents { age := 29, income := 75000, dependents := 2, riskTolerance := "Medium" } * fl12c) ∧
    covAfterAge { age := 51, income := 75000, dependents := 2, riskTolerance := "Medium" } =
      fl (covAfterDependents { age := 51, income := 75000, dependents := 2, riskTolerance := "Medium" } * fl08c) :=
  ⟨(c6_age_band _).1 (by decide) (by decide),
   (c6_age_band _).1 (by decide) (by decide),
   (c6_age_band _).2.1 (by decide),
   (c6_age_band _).2.2 (by decide)⟩

/-- C7: the risk tolerance alone selects policy type, term years,
explanation template and the final coverage multiplier, and the risk
multiplier is applied to the coverage that already includes the
dependent and age adjustments (it multiplies `covAfterAge`). -/
theorem c7_risk_cases (p : Profile) :
    (p.riskTolerance = "High" → policyTypeOf p = "Whole Life" ∧ durationOf p = 30 ∧
      covAfterRisk p = fl (covAfterAge p * fl13c) ∧
      explanationOf p = "Aggressive profile: higher coverage, longer term, whole life.") ∧
    (p.riskTolerance = "Low" → policyTypeOf p = "Term Life" ∧ durationOf p = 15 ∧
      covAfterRisk p = fl (covAfterAge p * fl08c) ∧
      explanationOf p = "Conservative profile: moderate coverage, shorter term.") ∧
    (p.riskTolerance = "Medium" → policyTypeOf p = "Term Life" ∧ durationOf p = 20 ∧
      covAfterRisk p = covAfterAge p ∧
      explanationOf p = "Balanced profile: standard coverage and term.") := by
  unfold policyTypeOf durationOf covAfterRisk explanationOf
  refine ⟨fun h => ?_, fun h => ?_, fun h => ?_⟩ <;> rw [h]
  · exact ⟨if_pos rfl, by rw [if_neg (by decide), if_neg (by decide), if_pos rfl],
      by rw [if_neg (by decide), if_neg (by decide), if_pos rfl],
      by rw [if_neg (by decide), if_neg (by decide), if_pos rfl]⟩
  · exact ⟨if_neg (by decide), by rw [if_pos rfl], by rw [if_pos rfl], by rw [if_pos rfl]⟩
  · exact ⟨if_neg (by decide), by rw [if_neg (by decide), if_pos rfl],
      by rw [if_neg (by decide), if_pos rfl], by rw [if_neg (by decide), if_pos rfl]⟩

/-- Witness for C7 at one profile per risk tolerance value. -/
theorem c7_risk_cases_witness :
    (policyTypeOf { age := 25, income := 50000, dependents := 0, riskTolerance := "High" } = "Whole Life" ∧
      durationOf { age := 25, income := 50000, dependents := 0, riskTolerance := "High" } = 30 ∧
      covAfterRisk { age := 25, income := 50000, dependents := 0, riskTolerance := "High" } =
        fl (covAfterAge { age := 25, income := 50000, dependents := 0, riskTolerance := "High" } * fl13c) ∧
      explanationOf { age := 25, income := 50000, dependents := 0, riskTolerance := "High" } =
        "Aggressive profile: higher coverage, longer term, whole life.") ∧
    (policyTypeOf { age := 40, income := 50000, dependents := 1, riskTolerance := "Low" } = "Term Life" ∧
      durationOf { age := 40, income := 50000, dependents := 1, riskTolerance := "Low" } = 15 ∧
      covAfterRisk { age := 40, income := 50000, dependents := 1, riskTolerance := "Low" } =
        fl (covAfterAge { age := 40, income := 50000, dependents := 1, riskTolerance := "Low" } * fl08c) ∧
      explanationOf { age := 40, income := 50000, dependents := 1, riskTolerance := "Low" } =
        "Conservative profile: moderate coverage, shorter term.") ∧
    (policyTypeOf { age := 30, income := 75000, dependents := 2, riskTolerance := "Medium" } = "Term Life" ∧
      durationOf { age := 30, income := 75000, dependents := 2, riskTolerance := "Medium" } = 20 ∧
      covAfterRisk { age := 30, income := 75000, dependents := 2, riskTolerance := "Medium" } =
        covAfterAge { age := 30, income := 75000, dependents := 2, riskTolerance := "Medium" } ∧
      explanationOf { age := 30, income := 75000, dependents := 2, riskTolerance := "Medium" } =
        "Balanced profile: standard coverage and term.") :=
  ⟨(c7_risk_cases _).1 rfl, (c7_risk_cases _).2.1 rfl, (c7_risk_cases _).2.2 rfl⟩

/-- C10: the engine is a total function of the risk string; for any value
outside Low, Medium, High the switch matches no case, leaving the
initialised defaults: Term Life, 20 years, empty explanation, and no
risk multiplier on the coverage. -/
theorem c10_unknown_risk_defaults (p : Profile)
    (h1 : p.riskTolerance ≠ "Low") (h2 : p.riskTolerance ≠ "Medium")
    (h3 : p.riskTolerance ≠ "High") :
    policyTypeOf p = "Term Life" ∧ durationOf p = 20 ∧ explanationOf p = "" ∧
    covAfterRisk p = covAfterAge p ∧
    getRecommendation p =
      { type := "Term Life",
        coverage := "$" ++ toLocaleString (round (coverageAmount p)),
        duration := "20 years", explanation := "" } := by
  have ht : policyTypeOf p = "Term Life" := by
    unfold policyTypeOf; rw [if_neg h3]
  have hd : durationOf p = 20 := by
    unfold durationOf; rw [if_neg h1, if_neg h2, if_neg h3]
  have he : explanationOf p = "" := by
    unfold explanationOf; rw [if_neg h1, if_neg h2, if_neg h3]
  have hc : covAfterRisk p = covAfterAge p := by
    unfold covAfterRisk; rw [if_neg h1, if_neg h2, if_neg h3]
  refine ⟨ht, hd, he, hc, ?_⟩
  unfold getRecommendation
  rw [ht, hd, he]
  congr 1

/-- Witness for C10 with the risk string Unknown. -/
theorem c10_unknown_risk_defaults_witness :
    policyTypeOf { age := 30, income := 75000, dependents := 2, riskTolerance := "Unknown" } = "Term Life" ∧
    durationOf { age := 30, income := 75000, dependents := 2, riskTolerance := "Unknown" } = 20 ∧
    explanationOf { age := 30, income := 75000, dependents := 2, riskTolerance := "Unknown" } = "" ∧
    covAfterRisk { age := 30, income := 75000, dependents := 2, riskTolerance := "Unknown" } =
      covAfterAge { age := 30, income := 75000, dependents := 2, riskTolerance := "Unknown" } ∧
    getRecommendation { age := 30, income := 75000, dependents := 2, riskTolerance := "Unknown" } =
      { type := "Term Life",
        coverage := "$" ++ toLocaleString
          (round (coverageAmount { age := 30, income := 75000, dependents := 2, riskTolerance := "Unknown" })),
        duration := "20 years", explanation := "" } :=
  c10_unknown_risk_defaults _ (by decide) (by decide) (by decide)

/-- C8: for every valid profile the final numeric coverage is a multiple
of 1000: the engine rounds `coverage/1000` to an integer and multiplies
back, and in the reachable range the final double multiplication is
exact. -/
theorem c8_coverage_multiple_of_1000 (p : Profile) (h : ValidProfile p) :
    ∃ k : ℤ, coverageAmount p = 1000 * (k : ℚ) := by
  obtain ⟨hc0, hcB⟩ := covAfterRisk_range_of_valid p h
  have hx0 : 0 ≤ fl (covAfterRisk p / 1000) := fl_nonneg (by positivity)
  have hxB : fl (covAfterRisk p / 1000) ≤ 1600000 := by
    have hdiv : covAfterRisk p / 1000 ≤ 800000 := by linarith [hcB]
    calc fl (covAfterRisk p / 1000) ≤ 2 * 800000 :=
          fl_le_double (by positivity) hdiv
      _ = 1600000 := by norm_num
  have hn0 : 0 ≤ coverageRounded p := round_nonneg_of_nonneg hx0
  have hnB : coverageRounded p ≤ 1600001 := by
    have := round_le_add_half (fl (covAfterRisk p / 1000))
    have hq : (coverageRounded p : ℚ) ≤ 1600001 := by
      unfold coverageRounded
      linarith
    exact_mod_cast hq
  refine ⟨coverageRounded p, ?_⟩
  unfold coverageAmount
  have hcast : (coverageRounded p : ℚ) * 1000 = ((coverageRounded p * 1000 : ℤ) : ℚ) := by
    push_cast; ring
  rw [hcast, fl_intCast (by omega) (by omega)]
  push_cast
  ring

/-- Witness for C8 at the Medium end-to-end example profile. -/
theorem c8_coverage_multiple_of_1000_witness :
    ∃ k : ℤ, coverageAmount { age := 30, income := 75000, dependents := 2, riskTolerance := "Medium" } =
      1000 * (k : ℚ) :=
  c8_coverage_multiple_of_1000 _ (by decide)

theorem coverageAmount_mono_of_dependents_le (p q : Profile)
    (hage : p.age = q.age) (hrisk : p.riskTolerance = q.riskTolerance)
    (h1p : 0 < covAfterDependents p)
    (h1 : covAfterDependents p ≤ covAfterDependents q) :
    coverageAmount p ≤ coverageAmount q := by
  have h12 : (0:ℚ) < fl12c := by rw [fl12c_val]; norm_num
  have h08 : (0:ℚ) < fl08c := by rw [fl08c_val]; norm_num
  have h13 : (0:ℚ) < fl13c := by rw [fl13c_val]; norm_num
  have h2 : covAfterAge p ≤ covAfterAge q := by
    unfold covAfterAge
    rw [hage]
    split_ifs
    · exact fl_mono (mul_nonneg h1p.le h12.le) (mul_le_mul_of_nonneg_right h1 h12.le)
    · exact fl_mono (mul_nonneg h1p.le h08.le) (mul_le_mul_of_nonneg_right h1 h08.le)
    · exact h1
  have h2p : 0 ≤ covAfterAge p := by
    unfold covAfterAge
    split_ifs
    · exact fl_nonneg (mul_nonneg h1p.le h12.le)
    · exact fl_nonneg (mul_nonneg h1p.le h08.le)
    · exact h1p.le
  have h3 : covAfterRisk p ≤ covAfterRisk q := by
    unfold covAfterRisk
    rw [hrisk]
    split_ifs
    · exact fl_mono (mul_nonneg h2p h08.le) (mul_le_mul_of_nonneg_right h2 h08.le)
    · exact h2
    · exact fl_mono (mul_nonneg h2p h13.le) (mul_le_mul_of_nonneg_right h2 h13.le)
    · exact h2
  have h3p : 0 ≤ covAfterRisk p := by
    unfold covAfterRisk
    split_ifs
    · exact fl_nonneg (mul_nonneg h2p h08.le)
    · exact h2p
    · exact fl_nonneg (mul_nonneg h2p h13.le)
    · exact h2p
  have h4 : fl (covAfterRisk p / 1000) ≤ fl (covAfterRisk q / 1000) :=
    fl_mono (by positivity) (by linarith)
  have h5 : coverageRounded p ≤ coverageRounded q := round_mono_rat h4
  have h5p : 0 ≤ coverageRounded p :=
    round_nonneg_of_nonneg (fl_nonneg (by positivity))
  unfold coverageAmount
  apply fl_mono
  · positivity
  · have hql : (coverageRounded p : ℚ) ≤ (coverageRounded q : ℚ) := by exact_mod_cast h5
    nlinarith

/-- C9: with age, income and risk tolerance fixed, raising dependents from
d to d + 1 (inside the valid range) never decreases the final numeric
coverage: the dependent addition is exact integer arithmetic and every
later stage of the engine, double rounding included, is monotone. -/
theorem c9_dependents_monotone (age income d : ℤ) (r : String)
    (h : ValidProfile { age := age, income := income, dependents := d, riskTolerance := r })
    (hdlt : d < 10) :
    coverageAmount { age := age, income := income, dependents := d, riskTolerance := r } ≤
      coverageAmount { age := age, income := income, dependents := d + 1, riskTolerance := r } := by
  dsimp only [ValidProfile] at h
  obtain ⟨ha0, hau, hi0, hiu, hd0, hdu, hr⟩ := h
  have hcdp := covAfterDependents_eq
    { age := age, income := income, dependents := d, riskTolerance := r }
    (show (0:ℤ) ≤ income by omega) hiu hd0 hdu
  have hcdq := covAfterDependents_eq
    { age := age, income := income, dependents := d + 1, riskTolerance := r }
    (show (0:ℤ) ≤ income by omega) hiu
    (show (0:ℤ) ≤ d + 1 by omega) (show d + 1 ≤ (10:ℤ) by omega)
  refine coverageAmount_mono_of_dependents_le
    { age := age, income := income, dependents := d, riskTolerance := r }
    { age := age, income := income, dependents := d + 1, riskTolerance := r }
    rfl rfl ?_ ?_
  · rw [hcdp]
    have hpos : (0:ℤ) < income * 10 + d * 250000 := by nlinarith
    exact_mod_cast hpos
  · rw [hcdp, hcdq]
    have hle : income * 10 + d * 250000 ≤ income * 10 + (d + 1) * 250000 := by nlinarith
    exact_mod_cast hle

/-- Witness for C9 at the Medium example profile, raising dependents from
2 to 3. -/
theorem c9_dependents_monotone_witness :
    coverageAmount { age := 30, income := 75000, dependents := 2, riskTolerance := "Medium" } ≤
      coverageAmount { age := 30, income := 75000, dependents := 3, riskTolerance := "Medium" } :=
  c9_dependents_monotone 30 75000 2 "Medium" (by decide) (by decide)

end SkyGem
